import Mathlib

/-!
Shallow embedding of the policy-router decision engine, configuration model
and daemon request handling, together with proofs of the specification's
claims about them.

The Rust sources embedded here are:
* src/policy/engine.rs   — normalization, matching and the decide pipeline
* src/policy/config.rs   — config data model and validation
* src/bin/policy-routerd.rs — daemon state, reload and connection handling
* src/ipc/mod.rs         — request and response schema

Rust BTreeMap values are modelled as association lists whose keys are held
in strictly ascending order (the map invariant is an explicit hypothesis
where a proof needs it); machine strings are Lean strings, and fallible
operations return Option or Except.
-/

namespace PolicyRouter

/-! ## String helpers mirroring the Rust standard library pieces used -/

/-- Rust str::trim limited to ASCII whitespace on a character list:
drop whitespace from the front, then from the back. -/
def trimList (l : List Char) : List Char :=
  ((l.dropWhile Char.isWhitespace).reverse.dropWhile Char.isWhitespace).reverse

/-- Rust str::trim on strings. -/
def trimStr (s : String) : String :=
  String.mk (trimList s.data)

/-- Rust str::trim_end_matches applied with a dot: strip every trailing dot. -/
def rstripDots (s : String) : String :=
  String.mk ((s.data.reverse.dropWhile (fun c => c = '.')).reverse)

/-- Rust str::to_ascii_lowercase; Char.toLower only folds basic latin letters,
exactly like the Rust ASCII variant. -/
def lowerStr (s : String) : String :=
  String.mk (s.data.map Char.toLower)

/-- Rust str::split with a character separator, on character lists; splitting
an empty list yields one empty segment, as in Rust. -/
def splitChar (sep : Char) : List Char → List (List Char)
  | [] => [[]]
  | c :: cs =>
    let r := splitChar sep cs
    if c = sep then [] :: r
    else
      match r with
      | [] => [[c]]
      | h :: t => (c :: h) :: t

/-- Rust str::ends_with on strings. -/
def endsWith (s suffixPart : String) : Bool :=
  suffixPart.data.isSuffixOf s.data

/-- Rust str::split_once on character lists: split at the first occurrence of
the separator sequence. -/
def splitOnceList (sep : List Char) : List Char → Option (List Char × List Char)
  | [] => if sep.isPrefixOf ([] : List Char) then some ([], []) else none
  | c :: cs =>
    if sep.isPrefixOf (c :: cs) then some ([], (c :: cs).drop sep.length)
    else (splitOnceList sep cs).map (fun p => (c :: p.1, p.2))

/-! ## Config data model (src/policy/config.rs) -/

/-- EgressKind from src/policy/config.rs. -/
inductive EgressKind where
  | singbox
  | socks5
  | direct
  | block
deriving DecidableEq, Repr

/-- EgressSpec from src/policy/config.rs: a kind plus an optional endpoint. -/
structure EgressSpec where
  kind : EgressKind
  endpoint : Option String
deriving DecidableEq, Repr

/-- AppConfig from src/policy/config.rs. The three BTreeMap fields are
association lists ordered by ascending key. -/
structure AppConfig where
  defaultsEgress : String
  egress : List (String × EgressSpec)
  rulesApp : List (String × List String)
  rulesDomain : List (String × List String)
deriving DecidableEq, Repr

/-- Lexicographic comparison of character lists by code point, the order
Rust's Ord on String induces (UTF-8 byte order agrees with code point
order). -/
def strLtb : List Char → List Char → Bool
  | [], [] => false
  | [], _ :: _ => true
  | _ :: _, [] => false
  | a :: as, b :: bs =>
    if a < b then true
    else if b < a then false
    else strLtb as bs

/-- The strict lexicographic order on egress ids. -/
def idLt (a b : String) : Prop :=
  strLtb a.data b.data = true

/-- The lexicographic order on egress ids: b is not strictly below a. -/
def idLe (a b : String) : Prop :=
  strLtb b.data a.data = false

instance (a b : String) : Decidable (idLt a b) := by
  unfold idLt
  infer_instance

instance (a b : String) : Decidable (idLe a b) := by
  unfold idLe
  infer_instance

/-- The BTreeMap key invariant: keys strictly ascending (hence unique). -/
def SortedKeys {β : Type} (l : List (String × β)) : Prop :=
  l.Pairwise (fun a b => idLt a.1 b.1)

instance {β : Type} (l : List (String × β)) : Decidable (SortedKeys l) := by
  unfold SortedKeys
  infer_instance

/-! ## Decision data model (src/policy/engine.rs) -/

/-- MatchKind from src/policy/engine.rs. -/
inductive MatchKind where
  | exact
  | suffix
deriving DecidableEq, Repr

/-- DecisionReason from src/policy/engine.rs. -/
inductive DecisionReason where
  | blockByApp (egress : String) (pattern : String)
  | blockByDomain (egress : String) (pattern : String) (matchKind : MatchKind)
  | appRule (egress : String) (pattern : String)
  | domainRule (egress : String) (pattern : String) (matchKind : MatchKind)
  | default (egress : String)
deriving DecidableEq, Repr

/-- Decision from src/policy/engine.rs. -/
structure Decision where
  egress : String
  reason : DecisionReason
deriving DecidableEq, Repr

/-! ## Normalization and matching (src/policy/engine.rs) -/

/-- normalize_process_name: trim, replace every backslash with a slash, take
the last non-empty path segment, lowercase. -/
def normalizeProcessName (raw : String) : String :=
  let trimmed := trimList raw.data
  let replaced := trimmed.map (fun c => if c = '\\' then '/' else c)
  let segments := splitChar '/' replaced
  let base := (segments.reverse.find? (fun seg => !seg.isEmpty)).getD []
  String.mk (base.map Char.toLower)

/-- The domain normalization inlined in domain_matches_any: trim, strip all
trailing dots, ASCII-lowercase. -/
def normalizeDomain (raw : String) : String :=
  lowerStr (rstripDots (trimStr raw))

/-- Strip one optional leading dot, as strip_prefix does in
domain_matches_suffix. -/
def stripLeadingDot (s : String) : String :=
  match s.data with
  | '.' :: rest => String.mk rest
  | _ => s

/-- domain_matches_suffix from src/policy/engine.rs. The first argument is the
already-normalized domain, the second the raw pattern; the result carries the
trimmed raw pattern and the match kind. -/
def domainMatchesSuffix (domain : String) (rawSuffix : String) :
    Option (String × MatchKind) :=
  let suffixRaw := lowerStr (rstripDots (trimStr rawSuffix))
  if suffixRaw = "" then none
  else
    let suffixNorm := stripLeadingDot suffixRaw
    if domain = suffixNorm then some (trimStr rawSuffix, MatchKind.exact)
    else if endsWith domain (String.mk ('.' :: suffixNorm.data)) then
      some (trimStr rawSuffix, MatchKind.suffix)
    else none

/-- domain_matches_any from src/policy/engine.rs: normalize the domain once
and return the first pattern that matches it. -/
def domainMatchesAny (suffixes : List String) (domain : String) :
    Option (String × MatchKind) :=
  let d := normalizeDomain domain
  suffixes.findSome? (fun raw => domainMatchesSuffix d raw)

/-- find_matching_app_pattern from src/policy/engine.rs: the first pattern
whose own process-name normalization equals the normalized value. -/
def findMatchingAppPattern (list : List String) (normalizedValue : String) :
    Option String :=
  list.find? (fun pat => normalizeProcessName pat = normalizedValue)

/-! ## Egress ordering and rule selection (src/policy/engine.rs) -/

/-- Map lookup on the association-list model of BTreeMap. -/
def lookupKey {β : Type} (l : List (String × β)) (k : String) : Option β :=
  (l.find? (fun e => e.1 = k)).map (fun e => e.2)

/-- is_block_egress from src/policy/engine.rs. -/
def isBlockEgress (cfg : AppConfig) (id : String) : Bool :=
  match lookupKey cfg.egress id with
  | some spec => spec.kind = EgressKind.block
  | none => false

/-- The kind ranking used by ordered_non_block_rule_egresses; Block is
excluded from the ordering. -/
def kindRank : EgressKind → Option Nat
  | EgressKind.singbox => some 0
  | EgressKind.socks5 => some 1
  | EgressKind.direct => some 2
  | EgressKind.block => none

/-- The rank of a rule-owning egress id in a given config: its catalogue
spec's kind rank, if the id is catalogued and not block-kind. -/
def kindRankOf (cfg : AppConfig) (id : String) : Option Nat :=
  (lookupKey cfg.egress id).bind (fun spec => kindRank spec.kind)

/-- The comparison ordered_non_block_rule_egresses sorts by: kind rank first,
then the egress id lexicographically. -/
def rankIdLe (a b : String × Nat) : Prop :=
  a.2 < b.2 ∨ (a.2 = b.2 ∧ idLe a.1 b.1)

instance : DecidableRel rankIdLe := fun a b => by
  unfold rankIdLe
  infer_instance

/-- The rule-map keys catalogued with a non-block kind, paired with their
kind rank; the list ordered_non_block_rule_egresses builds before sorting. -/
def rankedRuleEgresses {β : Type} (cfg : AppConfig)
    (rules : List (String × β)) : List (String × Nat) :=
  rules.filterMap (fun e =>
    (lookupKey cfg.egress e.1).bind (fun spec =>
      (kindRank spec.kind).map (fun r => (e.1, r))))

/-- ordered_non_block_rule_egresses from src/policy/engine.rs: the rule-map
keys that are catalogued with a non-block kind, sorted by (kind rank, id). -/
def orderedNonBlockRuleEgresses {β : Type} (cfg : AppConfig)
    (rules : List (String × β)) : List String :=
  (List.insertionSort rankIdLe (rankedRuleEgresses cfg rules)).map (fun e => e.1)

/-- The shared skeleton of choose_domain and choose_app: walk the ordered
non-block egresses, fetch that egress's pattern list, and return the first
decision the matcher produces. -/
def chooseRule {β : Type} (cfg : AppConfig) (rules : List (String × β))
    (mk : String → β → Option Decision) : Option Decision :=
  (orderedNonBlockRuleEgresses cfg rules).findSome? (fun eg =>
    (lookupKey rules eg).bind (mk eg))

/-- choose_domain from src/policy/engine.rs. -/
def chooseDomain (domain : String) (cfg : AppConfig) : Option Decision :=
  chooseRule cfg cfg.rulesDomain (fun eg pats =>
    (domainMatchesAny pats domain).map (fun m =>
      ⟨eg, DecisionReason.domainRule eg m.1 m.2⟩))

/-- choose_app from src/policy/engine.rs. -/
def chooseApp (processName : String) (cfg : AppConfig) : Option Decision :=
  let normalized := normalizeProcessName processName
  chooseRule cfg cfg.rulesApp (fun eg pats =>
    (findMatchingAppPattern pats normalized).map (fun p =>
      ⟨eg, DecisionReason.appRule eg p⟩))

/-- choose_block_app from src/policy/engine.rs: first block-kind app-rule
entry, in map (ascending key) order, owning a matching pattern. -/
def chooseBlockApp (cfg : AppConfig) (processName : String) :
    Option (String × String) :=
  let normalized := normalizeProcessName processName
  (cfg.rulesApp.filter (fun e => isBlockEgress cfg e.1)).findSome? (fun e =>
    (findMatchingAppPattern e.2 normalized).map (fun p => (e.1, p)))

/-- choose_block_domain from src/policy/engine.rs. -/
def chooseBlockDomain (cfg : AppConfig) (domain : String) :
    Option (String × (String × MatchKind)) :=
  (cfg.rulesDomain.filter (fun e => isBlockEgress cfg e.1)).findSome? (fun e =>
    (domainMatchesAny e.2 domain).map (fun m => (e.1, m)))

/-- decide_block from src/policy/engine.rs. -/
def decideBlock (cfg : AppConfig) (processName domain : Option String) :
    Option Decision :=
  match processName.bind (fun n => chooseBlockApp cfg n) with
  | some (e, p) => some ⟨e, DecisionReason.blockByApp e p⟩
  | none =>
    match domain.bind (fun d => chooseBlockDomain cfg d) with
    | some (e, m) => some ⟨e, DecisionReason.blockByDomain e m.1 m.2⟩
    | none => none

/-- decide_default from src/policy/engine.rs. -/
def decideDefault (cfg : AppConfig) : Decision :=
  ⟨cfg.defaultsEgress, DecisionReason.default cfg.defaultsEgress⟩

/-- decide from src/policy/engine.rs: block rules, then domain rules, then
app rules, then the default egress. -/
def decide (cfg : AppConfig) (processName domain : Option String) : Decision :=
  match decideBlock cfg processName domain with
  | some d => d
  | none =>
    match domain.bind (fun d => chooseDomain d cfg) with
    | some d => d
    | none =>
      match processName.bind (fun n => chooseApp n cfg) with
      | some d => d
      | none => decideDefault cfg

/-! ## Config validation (src/policy/config.rs) -/

/-- Rust u16::from_str on a character list: optional leading plus sign, at
least one digit, digits only, value within the u16 range. -/
def parsePortU16 (s : List Char) : Option Nat :=
  let digits := match s with
    | '+' :: rest => rest
    | _ => s
  if digits.isEmpty then none
  else if digits.all Char.isDigit then
    let v := digits.foldl (fun acc c => acc * 10 + (c.toNat - 48)) 0
    if v ≤ 65535 then some v else none
  else none

/-- parse_endpoint from src/policy/config.rs: scheme://host:port with an
optional bracketed IPv6 host; the port must parse as u16 and be nonzero. -/
def parseEndpoint (endpoint : String) : Option (String × String × Nat) :=
  match splitOnceList "://".data endpoint.data with
  | none => none
  | some (scheme, rest) =>
    if (trimList scheme).isEmpty then none
    else
      let hostPort : Option (List Char × List Char) :=
        match rest with
        | '[' :: afterBracket =>
          let host := afterBracket.takeWhile (fun c => c ≠ ']')
          match afterBracket.dropWhile (fun c => c ≠ ']') with
          | ']' :: tl =>
            match tl with
            | ':' :: portStr => some (host, portStr)
            | _ => none
          | _ => none
        | _ => splitOnceList [':'] rest
      match hostPort with
      | none => none
      | some (host, portStr) =>
        if (trimList host).isEmpty then none
        else
          match parsePortU16 portStr with
          | none => none
          | some p =>
            if p = 0 then none else some (String.mk scheme, String.mk host, p)

/-- The per-spec endpoint constraint enforced by AppConfig::validate:
singbox and socks5 need a socks5-scheme endpoint, direct and block must have
none. -/
def endpointOk (spec : EgressSpec) : Bool :=
  match spec.kind with
  | EgressKind.singbox | EgressKind.socks5 =>
    match spec.endpoint with
    | none => false
    | some ep =>
      let t := trimStr ep
      if t = "" then false
      else
        match parseEndpoint t with
        | none => false
        | some (scheme, _, _) => scheme = "socks5"
  | EgressKind.direct | EgressKind.block => spec.endpoint.isNone

/-- BTreeMap::contains_key on the association-list model. -/
def containsKey {β : Type} (l : List (String × β)) (k : String) : Bool :=
  (lookupKey l k).isSome

/-- AppConfig::validate from src/policy/config.rs, as a pass/fail check:
the default egress is catalogued, every rule key is catalogued, every spec
obeys the endpoint constraint, and every pattern is non-empty after trim. -/
def validateb (cfg : AppConfig) : Bool :=
  containsKey cfg.egress cfg.defaultsEgress &&
  (cfg.rulesApp.map (fun e => e.1) ++ cfg.rulesDomain.map (fun e => e.1)).all
    (fun id => containsKey cfg.egress id) &&
  cfg.egress.all (fun e => endpointOk e.2) &&
  cfg.rulesApp.all (fun e => e.2.all (fun p => !(trimStr p = ""))) &&
  cfg.rulesDomain.all (fun e => e.2.all (fun p => !(trimStr p = "")))

/-- AppConfig::load_from_path from src/policy/config.rs, with the file read
and the TOML parse supplied as outcomes: read, then parse, then validate;
any failure is returned and no config is produced. -/
def loadFromPath (readResult : Except String String)
    (parseToml : String → Except String AppConfig) : Except String AppConfig :=
  match readResult with
  | Except.error e => Except.error e
  | Except.ok raw =>
    match parseToml raw with
    | Except.error e => Except.error e
    | Except.ok cfg =>
      if validateb cfg then Except.ok cfg
      else Except.error "config validation failed"

/-! ## IPC schema (src/ipc/mod.rs) -/

/-- Request from src/ipc/mod.rs. -/
inductive Request where
  | status
  | reload
  | stop
  | explain (process : Option String) (domain : Option String)
  | diagnostics
deriving DecidableEq, Repr

/-- EgressInfo from src/ipc/mod.rs. -/
structure EgressInfo where
  id : String
  kind : String
  endpoint : Option String
deriving DecidableEq, Repr

/-- StatusResponse from src/ipc/mod.rs. -/
structure StatusResponse where
  uptimeMs : Nat
  configPath : String
  egress : List EgressInfo
deriving DecidableEq, Repr

/-- DiagnosticsResponse from src/ipc/mod.rs. -/
structure DiagnosticsResponse where
  uptimeMs : Nat
  configPath : String
  socket : String
  egressCount : Nat
  running : Bool
  ipcRequests : Nat
  reloadOk : Nat
  reloadErr : Nat
deriving DecidableEq, Repr

/-- DecisionSource from src/ipc/mod.rs. -/
inductive DecisionSource where
  | blockApp
  | blockDomain
  | domainRule
  | appRule
  | default
deriving DecidableEq, Repr

/-- MatcherKind from src/ipc/mod.rs. -/
inductive MatcherKind where
  | exact
  | suffix
deriving DecidableEq, Repr

/-- MatcherInfo from src/ipc/mod.rs. -/
structure MatcherInfo where
  kind : MatcherKind
  pattern : String
deriving DecidableEq, Repr

/-- DecisionInfo from src/ipc/mod.rs. -/
structure DecisionInfo where
  egress : String
  reason : String
  source : DecisionSource
  ruleEgress : Option String
  matcher : Option MatcherInfo
deriving DecidableEq, Repr

/-- ExplainResponse from src/ipc/mod.rs. -/
structure ExplainResponse where
  decision : DecisionInfo
deriving DecidableEq, Repr

/-- Response from src/ipc/mod.rs; the err variant carries the message. -/
inductive Response where
  | okStatus (s : StatusResponse)
  | okReload
  | okStop
  | okExplain (x : ExplainResponse)
  | okDiagnostics (d : DiagnosticsResponse)
  | err (message : String)
deriving DecidableEq, Repr

/-! ## Reason rendering (src/policy/engine.rs) -/

/-- match_kind_to_str from src/policy/engine.rs. -/
def matchKindToStr : MatchKind → String
  | MatchKind.exact => "exact"
  | MatchKind.suffix => "suffix"

/-- DecisionReason::to_human from src/policy/engine.rs. -/
def toHuman : DecisionReason → String
  | DecisionReason.blockByApp egress pattern =>
    "blocked: app exact match \x27" ++ pattern ++ "\x27 -> egress \x27" ++
      egress ++ "\x27 has highest priority"
  | DecisionReason.blockByDomain egress pattern mk =>
    "blocked: domain " ++ matchKindToStr mk ++ " match \x27" ++ pattern ++
      "\x27 -> egress \x27" ++ egress ++ "\x27 has highest priority"
  | DecisionReason.appRule egress pattern =>
    "app rule: exact match \x27" ++ pattern ++ "\x27 -> egress \x27" ++
      egress ++ "\x27"
  | DecisionReason.domainRule egress pattern mk =>
    "domain rule: " ++ matchKindToStr mk ++ " match \x27" ++ pattern ++
      "\x27 -> egress \x27" ++ egress ++ "\x27"
  | DecisionReason.default egress =>
    "default: egress \x27" ++ egress ++ "\x27 (no rules matched)"

/-! ## Daemon state and request handling (src/bin/policy-routerd.rs) -/

/-- The daemon State from src/bin/policy-routerd.rs: the swap-cell config,
the running flag and the three counters; the start instant is replaced by
uptime parameters where time is read. -/
structure DaemonState where
  configPath : String
  socket : String
  cfg : AppConfig
  running : Bool
  ipcRequests : Nat
  reloadOk : Nat
  reloadErr : Nat
deriving DecidableEq, Repr

/-- reload_config from src/bin/policy-routerd.rs, with the load_from_path
outcome passed in: on failure bump the error counter and return the error
leaving the stored config untouched, on success store the new config and
bump the ok counter. -/
def reloadConfig (st : DaemonState) (loadResult : Except String AppConfig) :
    Except String Unit × DaemonState :=
  match loadResult with
  | Except.error e =>
    (Except.error e, { st with reloadErr := st.reloadErr + 1 })
  | Except.ok next =>
    (Except.ok (), { st with cfg := next, reloadOk := st.reloadOk + 1 })

/-- EgressKind rendering used by build_status (strum lowercase). -/
def kindStr : EgressKind → String
  | EgressKind.singbox => "singbox"
  | EgressKind.socks5 => "socks5"
  | EgressKind.direct => "direct"
  | EgressKind.block => "block"

/-- build_status from src/bin/policy-routerd.rs. -/
def buildStatus (uptimeMs : Nat) (st : DaemonState) : StatusResponse :=
  { uptimeMs := uptimeMs
  , configPath := st.configPath
  , egress := st.cfg.egress.map (fun e =>
      { id := e.1, kind := kindStr e.2.kind, endpoint := e.2.endpoint }) }

/-- build_diagnostics from src/bin/policy-routerd.rs. -/
def buildDiagnostics (uptimeMs : Nat) (st : DaemonState) : DiagnosticsResponse :=
  { uptimeMs := uptimeMs
  , configPath := st.configPath
  , socket := st.socket
  , egressCount := st.cfg.egress.length
  , running := st.running
  , ipcRequests := st.ipcRequests
  , reloadOk := st.reloadOk
  , reloadErr := st.reloadErr }

/-- map_source from src/bin/policy-routerd.rs. -/
def mapSource : DecisionReason → DecisionSource
  | DecisionReason.blockByApp _ _ => DecisionSource.blockApp
  | DecisionReason.blockByDomain _ _ _ => DecisionSource.blockDomain
  | DecisionReason.appRule _ _ => DecisionSource.appRule
  | DecisionReason.domainRule _ _ _ => DecisionSource.domainRule
  | DecisionReason.default _ => DecisionSource.default

/-- map_rule_egress from src/bin/policy-routerd.rs. -/
def mapRuleEgress : DecisionReason → String
  | DecisionReason.blockByApp egress _ => egress
  | DecisionReason.blockByDomain egress _ _ => egress
  | DecisionReason.appRule egress _ => egress
  | DecisionReason.domainRule egress _ _ => egress
  | DecisionReason.default egress => egress

/-- map_matcher_kind from src/bin/policy-routerd.rs. -/
def mapMatcherKind : MatchKind → MatcherKind
  | MatchKind.exact => MatcherKind.exact
  | MatchKind.suffix => MatcherKind.suffix

/-- map_matcher from src/bin/policy-routerd.rs. -/
def mapMatcher : DecisionReason → Option MatcherInfo
  | DecisionReason.blockByApp _ pattern =>
    some { kind := MatcherKind.exact, pattern := pattern }
  | DecisionReason.appRule _ pattern =>
    some { kind := MatcherKind.exact, pattern := pattern }
  | DecisionReason.blockByDomain _ pattern mk =>
    some { kind := mapMatcherKind mk, pattern := pattern }
  | DecisionReason.domainRule _ pattern mk =>
    some { kind := mapMatcherKind mk, pattern := pattern }
  | DecisionReason.default _ => none

/-- explain from src/bin/policy-routerd.rs: decide on the current config and
decompose the reason. -/
def explainResp (st : DaemonState) (process domain : Option String) :
    ExplainResponse :=
  let d := decide st.cfg process domain
  { decision :=
    { egress := d.egress
    , reason := toHuman d.reason
    , source := mapSource d.reason
    , ruleEgress := some (mapRuleEgress d.reason)
    , matcher := mapMatcher d.reason } }

/-- handle_request from src/bin/policy-routerd.rs, with the uptime reading
and the reload load outcome passed in. -/
def handleRequest (uptimeMs : Nat) (loadResult : Except String AppConfig)
    (st : DaemonState) (req : Request) : Response × DaemonState :=
  match req with
  | Request.status => (Response.okStatus (buildStatus uptimeMs st), st)
  | Request.reload =>
    match reloadConfig st loadResult with
    | (Except.ok _, st') => (Response.okReload, st')
    | (Except.error e, st') =>
      (Response.err ("reload failed for " ++ st.configPath ++ ": " ++ e), st')
  | Request.stop => (Response.okStop, { st with running := false })
  | Request.explain p d => (Response.okExplain (explainResp st p d), st)
  | Request.diagnostics =>
    (Response.okDiagnostics (buildDiagnostics uptimeMs st), st)

/-- handle_conn from src/bin/policy-routerd.rs, with the decoded-request
outcome of read_json_line passed in. A decode failure is returned to the
caller at once: the request counter is not bumped, no dispatch happens and
no response is written. Otherwise the counter is bumped, the request is
dispatched, and the single produced response is written back. The third
component records the response written to the connection, if any. -/
def handleConn (uptimeMs : Nat) (loadResult : Except String AppConfig)
    (st : DaemonState) (readResult : Except String Request) :
    Except String Unit × DaemonState × Option Response :=
  match readResult with
  | Except.error e => (Except.error e, st, none)
  | Except.ok req =>
    let st1 := { st with ipcRequests := st.ipcRequests + 1 }
    let (resp, st2) := handleRequest uptimeMs loadResult st1 req
    (Except.ok (), st2, some resp)

/-! ## Derived definitions used to state the claims -/

/-- The id-level precedence the ordered list respects: whenever both ids have
kind ranks, the earlier id has the smaller (rank, id) pair. -/
def eidPrec (cfg : AppConfig) (x y : String) : Prop :=
  ∀ rx ry, kindRankOf cfg x = some rx → kindRankOf cfg y = some ry →
    (rx < ry ∨ (rx = ry ∧ idLe x y))

/-- The domain-pattern normalization described by the spec: the domain
normalization followed by stripping one optional leading dot, exactly the
steps domain_matches_suffix performs before comparing. -/
def normalizeDomainPattern (p : String) : String :=
  stripLeadingDot (lowerStr (rstripDots (trimStr p)))

/-- The config transform the pattern-normalization claim quantifies over:
replace every app rule pattern by its full process-name normalization
(its lowercased basename). -/
def normalizeAppPatterns (cfg : AppConfig) : AppConfig :=
  { cfg with rulesApp := cfg.rulesApp.map (fun e => (e.1, e.2.map normalizeProcessName)) }

/-! ## Concrete configurations used by witnesses and counterexamples -/

/-- The scenario config of spec section 8: defaults vpn; egress vpn (singbox),
proxy (socks5), direct, block; domain rule proxy = youtube.com; app rule
vpn = zen.exe; block app rule block = bad.exe. -/
def cfgScenario : AppConfig :=
  { defaultsEgress := "vpn"
  , egress :=
      [ ("block", ⟨EgressKind.block, none⟩)
      , ("direct", ⟨EgressKind.direct, none⟩)
      , ("proxy", ⟨EgressKind.socks5, some "socks5://127.0.0.1:1080"⟩)
      , ("vpn", ⟨EgressKind.singbox, some "socks5://127.0.0.1:1488"⟩) ]
  , rulesApp := [("block", ["bad.exe"]), ("vpn", ["zen.exe"])]
  , rulesDomain := [("proxy", ["youtube.com"])] }

/-- A validated config whose block egress owns the app pattern " b", whose
basename carries a leading space. -/
def cfgBlankPat : AppConfig :=
  { defaultsEgress := "direct"
  , egress := [("blk", ⟨EgressKind.block, none⟩), ("direct", ⟨EgressKind.direct, none⟩)]
  , rulesApp := [("blk", [" b"])]
  , rulesDomain := [] }

/-- A validated config with a full-path app pattern. -/
def cfgPathPat : AppConfig :=
  { defaultsEgress := "vpn"
  , egress := [("vpn", ⟨EgressKind.singbox, some "socks5://127.0.0.1:1488"⟩)]
  , rulesApp := [("vpn", ["C:\\Tools\\bad.exe"])]
  , rulesDomain := [] }

/-- A validated config whose vpn app pattern has a basename with a leading
space, separating matching before and after pattern normalization. -/
def cfgWsPat : AppConfig :=
  { defaultsEgress := "direct"
  , egress := [("direct", ⟨EgressKind.direct, none⟩),
               ("vpn", ⟨EgressKind.singbox, some "socks5://127.0.0.1:1488"⟩)]
  , rulesApp := [("vpn", ["a/ b"])]
  , rulesDomain := [] }

/-- A validated config where both vpn (singbox) and direct own a domain rule
for example.com and an app rule for zen.exe, exercising the priority order. -/
def cfgPrio : AppConfig :=
  { defaultsEgress := "direct"
  , egress := [("direct", ⟨EgressKind.direct, none⟩),
               ("vpn", ⟨EgressKind.singbox, some "socks5://127.0.0.1:1488"⟩)]
  , rulesApp := [("direct", ["zen.exe"]), ("vpn", ["zen.exe"])]
  , rulesDomain := [("direct", ["example.com"]), ("vpn", ["example.com"])] }

/-- A daemon state holding the scenario config. -/
def stScenario : DaemonState :=
  ⟨"config.toml", "policy-routerd.sock", cfgScenario, true, 0, 0, 0⟩

/-! ## Lexicographic order facts -/

/-- strLtb is irreflexive. -/
theorem strLtb_irrefl : ∀ l : List Char, strLtb l l = false := by
  intro l
  induction l with
  | nil => rfl
  | cons x xs ih => simp [strLtb, ih]

/-- strLtb is asymmetric. -/
theorem strLtb_asymm : ∀ {a b : List Char}, strLtb a b = true → strLtb b a = false := by
  intro a
  induction a with
  | nil =>
    intro b hab
    cases b with
    | nil => simp [strLtb] at hab
    | cons y ys => rfl
  | cons x xs ih =>
    intro b hab
    cases b with
    | nil => simp [strLtb] at hab
    | cons y ys =>
      by_cases h1 : x < y
      · have h2 : ¬ y < x := lt_asymm h1
        simp [strLtb, h1, h2]
      · by_cases h2 : y < x
        · simp [strLtb, h1, h2] at hab
        · have htail : strLtb xs ys = true := by simpa [strLtb, h1, h2] using hab
          simp [strLtb, h1, h2, ih htail]

/-- strLtb is transitive. -/
theorem strLtb_trans : ∀ {a b c : List Char},
    strLtb a b = true → strLtb b c = true → strLtb a c = true := by
  intro a
  induction a with
  | nil =>
    intro b c hab hbc
    cases b with
    | nil => simp [strLtb] at hab
    | cons y ys =>
      cases c with
      | nil => simp [strLtb] at hbc
      | cons z zs => rfl
  | cons x xs ih =>
    intro b c hab hbc
    cases b with
    | nil => simp [strLtb] at hab
    | cons y ys =>
      cases c with
      | nil => simp [strLtb] at hbc
      | cons z zs =>
        by_cases h1 : x < y
        · by_cases h2 : y < z
          · simp [strLtb, lt_trans h1 h2]
          · by_cases h3 : z < y
            · simp [strLtb, h2, h3] at hbc
            · have hyz : y = z := le_antisymm (not_lt.mp h3) (not_lt.mp h2)
              simp [strLtb, hyz ▸ h1]
        · by_cases h2 : y < x
          · simp [strLtb, h1, h2] at hab
          · have hxy : x = y := le_antisymm (not_lt.mp h2) (not_lt.mp h1)
            subst hxy
            have htail : strLtb xs ys = true := by simpa [strLtb, h1, h2] using hab
            by_cases h3 : x < z
            · simp [strLtb, h3]
            · by_cases h4 : z < x
              · simp [strLtb, h3, h4] at hbc
              · have htail2 : strLtb ys zs = true := by
                  simpa [strLtb, h3, h4] using hbc
                simp [strLtb, h3, h4, ih htail htail2]

/-- Two lists neither of which is strictly below the other are equal. -/
theorem strLtb_eq_of_not : ∀ {a b : List Char},
    strLtb a b = false → strLtb b a = false → a = b := by
  intro a
  induction a with
  | nil =>
    intro b hab _
    cases b with
    | nil => rfl
    | cons y ys => simp [strLtb] at hab
  | cons x xs ih =>
    intro b hab hba
    cases b with
    | nil => simp [strLtb] at hba
    | cons y ys =>
      by_cases h1 : x < y
      · simp [strLtb, h1] at hab
      · by_cases h2 : y < x
        · simp [strLtb, h1, h2] at hba
        · have hxy : x = y := le_antisymm (not_lt.mp h2) (not_lt.mp h1)
          have htail1 : strLtb xs ys = false := by simpa [strLtb, h1, h2] using hab
          have htail2 : strLtb ys xs = false := by
            simpa [strLtb, h1, h2, hxy] using hba
          rw [hxy, ih htail1 htail2]

/-- idLe is reflexive. -/
theorem idLe_refl (a : String) : idLe a a :=
  strLtb_irrefl a.data

/-- idLe is transitive. -/
theorem idLe_trans {a b c : String} (hab : idLe a b) (hbc : idLe b c) :
    idLe a c := by
  unfold idLe at *
  cases hca : strLtb c.data a.data with
  | false => rfl
  | true =>
    cases hab' : strLtb a.data b.data with
    | true => rw [strLtb_trans hca hab'] at hbc; cases hbc
    | false =>
      have : a.data = b.data := strLtb_eq_of_not hab' hab
      rw [← this] at hbc
      rw [hca] at hbc
      cases hbc

/-- idLe is total. -/
theorem idLe_total (a b : String) : idLe a b ∨ idLe b a := by
  unfold idLe
  cases hab : strLtb b.data a.data with
  | false => exact Or.inl rfl
  | true => exact Or.inr (strLtb_asymm hab)

/-- A strictly smaller id is also weakly smaller. -/
theorem idLe_of_idLt {a b : String} (h : idLt a b) : idLe a b :=
  strLtb_asymm h

/-- idLt and the reverse idLe are incompatible. -/
theorem idLt_not_idLe {a b : String} (h : idLt a b) (h' : idLe b a) : False := by
  unfold idLt at h
  unfold idLe at h'
  rw [h] at h'
  cases h'

/-! ## List and map lemmas used by the claim proofs -/

/-- The first hit of findSome? on a Pairwise-ordered list is related to every
other hit. -/
theorem findSome?_first_min {α β : Type} {r : α → α → Prop} {f : α → Option β}
    {b : β} :
    ∀ {l : List α}, l.Pairwise r → l.findSome? f = some b →
      ∃ a, a ∈ l ∧ f a = some b ∧
        ∀ a', a' ∈ l → (f a').isSome → a = a' ∨ r a a' := by
  intro l
  induction l with
  | nil => intro _ hb; simp at hb
  | cons x xs ih =>
    intro hp hb
    rcases List.pairwise_cons.mp hp with ⟨hx, hxs⟩
    cases hfx : f x with
    | some bx =>
      have hfb : f x = some b := by
        have hred := List.findSome?_cons_of_isSome (f := f) (a := x) xs
          (by simp [hfx])
        rw [hred] at hb
        exact hb
      exact ⟨x, List.mem_cons_self x xs, hfb, fun a' ha' _ =>
        (List.mem_cons.mp ha').elim (fun h => Or.inl h.symm)
          (fun h => Or.inr (hx a' h))⟩
    | none =>
      have hb' : xs.findSome? f = some b := by
        have hred := List.findSome?_cons_of_isNone (f := f) (a := x) xs
          (by simp [hfx])
        rw [hred] at hb
        exact hb
      obtain ⟨a, ha, hfa, hmin⟩ := ih hxs hb'
      refine ⟨a, List.mem_cons_of_mem _ ha, hfa, fun a' ha' hsome => ?_⟩
      rcases List.mem_cons.mp ha' with h | h
      · rw [h, hfx] at hsome
        simp at hsome
      · exact hmin a' h hsome

/-- A successful lookupKey exhibits a member of the association list. -/
theorem lookupKey_mem {β : Type} {l : List (String × β)} {k : String} {v : β}
    (h : lookupKey l k = some v) : (k, v) ∈ l := by
  unfold lookupKey at h
  cases hf : l.find? (fun e => e.1 = k) with
  | none => rw [hf] at h; simp at h
  | some e =>
    rw [hf] at h
    have hm := List.mem_of_find?_eq_some hf
    have hp : e.1 = k := by simpa using List.find?_some hf
    have hv : e.2 = v := by simpa using h
    cases e
    simp_all

/-- Conversely a member key is contained in the association list. -/
theorem containsKey_of_mem {β : Type} {l : List (String × β)} {k : String}
    {v : β} (h : (k, v) ∈ l) : containsKey l k = true := by
  unfold containsKey lookupKey
  have hsome : (l.find? (fun e => e.1 = k)).isSome :=
    List.find?_isSome.mpr ⟨(k, v), h, by simp⟩
  obtain ⟨e, he⟩ := Option.isSome_iff_exists.mp hsome
  simp [he]

/-- Every ranked rule egress carries exactly its kindRankOf value. -/
theorem rankedRuleEgresses_rank {β : Type} {cfg : AppConfig}
    {rules : List (String × β)} {x : String × Nat}
    (hx : x ∈ rankedRuleEgresses cfg rules) : kindRankOf cfg x.1 = some x.2 := by
  obtain ⟨e, _, he⟩ := List.mem_filterMap.mp hx
  cases hlk : lookupKey cfg.egress e.1 with
  | none => rw [hlk] at he; simp at he
  | some spec =>
    rw [hlk] at he
    simp only [Option.some_bind] at he
    cases hkr : kindRank spec.kind with
    | none => rw [hkr] at he; simp at he
    | some r =>
      rw [hkr] at he
      simp only [Option.map_some'] at he
      cases x
      cases he
      simp [kindRankOf, hlk, hkr]

/-- A rule key catalogued with a non-block kind appears among the ordered
non-block rule egresses. -/
theorem mem_orderedNonBlockRuleEgresses {β : Type} {cfg : AppConfig}
    {rules : List (String × β)} {e : String} {r : Nat} {v : β}
    (hlk : lookupKey rules e = some v) (hr : kindRankOf cfg e = some r) :
    e ∈ orderedNonBlockRuleEgresses cfg rules := by
  have hmem : (e, r) ∈ rankedRuleEgresses cfg rules := by
    apply List.mem_filterMap.mpr
    refine ⟨(e, v), lookupKey_mem hlk, ?_⟩
    unfold kindRankOf at hr
    cases hlk2 : lookupKey cfg.egress e with
    | none => rw [hlk2] at hr; simp at hr
    | some spec =>
      rw [hlk2] at hr
      simp only [Option.some_bind] at hr
      simp [hlk2, hr]
  have hmem2 : (e, r) ∈ List.insertionSort rankIdLe (rankedRuleEgresses cfg rules) :=
    (List.perm_insertionSort rankIdLe (rankedRuleEgresses cfg rules)).mem_iff.mpr hmem
  exact List.mem_map.mpr ⟨(e, r), hmem2, rfl⟩

/-- Every ordered non-block rule egress is catalogued with some kind rank. -/
theorem orderedNonBlockRuleEgresses_rank {β : Type} {cfg : AppConfig}
    {rules : List (String × β)} {x : String}
    (hx : x ∈ orderedNonBlockRuleEgresses cfg rules) :
    ∃ r, kindRankOf cfg x = some r := by
  obtain ⟨p, hp, hpx⟩ := List.mem_map.mp hx
  have hmem : p ∈ rankedRuleEgresses cfg rules :=
    (List.perm_insertionSort rankIdLe (rankedRuleEgresses cfg rules)).mem_iff.mp hp
  exact ⟨p.2, hpx ▸ rankedRuleEgresses_rank hmem⟩

/-- The ordered non-block rule egresses are pairwise ordered by eidPrec. -/
theorem orderedNonBlockRuleEgresses_pairwise {β : Type} (cfg : AppConfig)
    (rules : List (String × β)) :
    (orderedNonBlockRuleEgresses cfg rules).Pairwise (eidPrec cfg) := by
  haveI : IsTotal (String × Nat) rankIdLe := by
    constructor
    intro a b
    rcases Nat.lt_trichotomy a.2 b.2 with h | h | h
    · exact Or.inl (Or.inl h)
    · rcases idLe_total a.1 b.1 with h' | h'
      · exact Or.inl (Or.inr ⟨h, h'⟩)
      · exact Or.inr (Or.inr ⟨h.symm, h'⟩)
    · exact Or.inr (Or.inl h)
  haveI : IsTrans (String × Nat) rankIdLe := by
    constructor
    intro a b c hab hbc
    rcases hab with h1 | ⟨h1, h1'⟩
    · rcases hbc with h2 | ⟨h2, _⟩
      · exact Or.inl (h1.trans h2)
      · exact Or.inl (h2 ▸ h1)
    · rcases hbc with h2 | ⟨h2, h2'⟩
      · exact Or.inl (h1 ▸ h2)
      · exact Or.inr ⟨h1.trans h2, idLe_trans h1' h2'⟩
  have hsorted : (List.insertionSort rankIdLe (rankedRuleEgresses cfg rules)).Pairwise rankIdLe :=
    List.sorted_insertionSort rankIdLe (rankedRuleEgresses cfg rules)
  have hstrong : (List.insertionSort rankIdLe (rankedRuleEgresses cfg rules)).Pairwise
      (fun a b => eidPrec cfg a.1 b.1) := by
    refine hsorted.imp_of_mem ?_
    intro a b ha hb hab
    have hra : kindRankOf cfg a.1 = some a.2 :=
      rankedRuleEgresses_rank
        ((List.perm_insertionSort rankIdLe (rankedRuleEgresses cfg rules)).mem_iff.mp ha)
    have hrb : kindRankOf cfg b.1 = some b.2 :=
      rankedRuleEgresses_rank
        ((List.perm_insertionSort rankIdLe (rankedRuleEgresses cfg rules)).mem_iff.mp hb)
    intro rx ry hx hy
    have hxa : rx = a.2 := by rw [hra] at hx; exact (Option.some.inj hx).symm
    have hyb : ry = b.2 := by rw [hrb] at hy; exact (Option.some.inj hy).symm
    subst hxa hyb
    exact hab
  unfold orderedNonBlockRuleEgresses
  exact List.pairwise_map.mpr hstrong

/-- chooseRule returns a decision whose egress is the (kind rank, id)-least
rule-owning non-block egress whose matcher fires, whenever one exists. -/
theorem chooseRule_min {β : Type} {cfg : AppConfig} {rules : List (String × β)}
    {mk : String → β → Option Decision}
    (hmk : ∀ e v d, mk e v = some d → d.egress = e)
    {e1 : String} {r1 : Nat} {v1 : β}
    (hlk : lookupKey rules e1 = some v1) (hr1 : kindRankOf cfg e1 = some r1)
    (hm1 : (mk e1 v1).isSome) :
    ∃ dec rw, chooseRule cfg rules mk = some dec ∧
      kindRankOf cfg dec.egress = some rw ∧
      ∀ e' r' v', lookupKey rules e' = some v' → kindRankOf cfg e' = some r' →
        (mk e' v').isSome → (rw < r' ∨ (rw = r' ∧ idLe dec.egress e')) := by
  have he1mem : e1 ∈ orderedNonBlockRuleEgresses cfg rules :=
    mem_orderedNonBlockRuleEgresses hlk hr1
  have hfe1 : ((lookupKey rules e1).bind (mk e1)).isSome := by
    rw [hlk]
    simpa using hm1
  have hsome : ((orderedNonBlockRuleEgresses cfg rules).findSome?
      (fun eg => (lookupKey rules eg).bind (mk eg))).isSome :=
    List.findSome?_isSome_iff.mpr ⟨e1, he1mem, hfe1⟩
  obtain ⟨dec, hdec⟩ := Option.isSome_iff_exists.mp hsome
  obtain ⟨w, hw, hfw, hmin⟩ :=
    findSome?_first_min (orderedNonBlockRuleEgresses_pairwise cfg rules) hdec
  have hvw : ∃ vw, lookupKey rules w = some vw ∧ mk w vw = some dec := by
    cases hlw : lookupKey rules w with
    | none => rw [hlw] at hfw; simp at hfw
    | some vw =>
      rw [hlw] at hfw
      exact ⟨vw, rfl, by simpa using hfw⟩
  obtain ⟨vw, hlw, hmkw⟩ := hvw
  have hde : dec.egress = w := hmk _ _ _ hmkw
  obtain ⟨rw', hrw⟩ := orderedNonBlockRuleEgresses_rank hw
  refine ⟨dec, rw', hdec, hde ▸ hrw, ?_⟩
  intro e' r' v' hlk' hr' hm'
  have he'mem : e' ∈ orderedNonBlockRuleEgresses cfg rules :=
    mem_orderedNonBlockRuleEgresses hlk' hr'
  have hfe' : ((lookupKey rules e').bind (mk e')).isSome := by
    rw [hlk']
    simpa using hm'
  rcases hmin e' he'mem hfe' with h | h
  · subst h
    rw [hrw] at hr'
    exact Or.inr ⟨Option.some.inj hr', hde ▸ idLe_refl w⟩
  · have := h rw' r' hrw hr'
    rw [hde]
    exact this

/-- Any decision chooseRule produces names a catalogued egress. -/
theorem chooseRule_catalogued {β : Type} {cfg : AppConfig}
    {rules : List (String × β)} {mk : String → β → Option Decision}
    (hmk : ∀ e v d, mk e v = some d → d.egress = e) {dec : Decision}
    (hdec : chooseRule cfg rules mk = some dec) :
    (lookupKey cfg.egress dec.egress).isSome := by
  obtain ⟨w, hw, hfw⟩ := List.exists_of_findSome?_eq_some hdec
  have hvw : ∃ vw, lookupKey rules w = some vw ∧ mk w vw = some dec := by
    cases hlw : lookupKey rules w with
    | none => rw [hlw] at hfw; simp at hfw
    | some vw =>
      rw [hlw] at hfw
      exact ⟨vw, rfl, by simpa using hfw⟩
  obtain ⟨vw, _, hmkw⟩ := hvw
  obtain ⟨r, hr⟩ := orderedNonBlockRuleEgresses_rank hw
  rw [hmk _ _ _ hmkw]
  unfold kindRankOf at hr
  cases hlk : lookupKey cfg.egress w with
  | none => rw [hlk] at hr; simp at hr
  | some spec => simp [hlk]

/-- The egress of any block app hit is block-kind in the catalogue. -/
theorem chooseBlockApp_isBlock {cfg : AppConfig} {n e p : String}
    (h : chooseBlockApp cfg n = some (e, p)) : isBlockEgress cfg e = true := by
  obtain ⟨x, hx, hfx⟩ := List.exists_of_findSome?_eq_some h
  have hblk := (List.mem_filter.mp hx).2
  cases hf : findMatchingAppPattern x.2 (normalizeProcessName n) with
  | none => rw [hf] at hfx; simp at hfx
  | some q =>
    rw [hf] at hfx
    have : (x.1, q) = (e, p) := by simpa using hfx
    have hx1 : x.1 = e := congrArg Prod.fst this
    rw [hx1] at hblk
    simpa using hblk

/-- The egress of any block domain hit is block-kind in the catalogue. -/
theorem chooseBlockDomain_isBlock {cfg : AppConfig} {d e : String}
    {m : String × MatchKind}
    (h : chooseBlockDomain cfg d = some (e, m)) : isBlockEgress cfg e = true := by
  obtain ⟨x, hx, hfx⟩ := List.exists_of_findSome?_eq_some h
  have hblk := (List.mem_filter.mp hx).2
  cases hf : domainMatchesAny x.2 d with
  | none => rw [hf] at hfx; simp at hfx
  | some q =>
    rw [hf] at hfx
    have : (x.1, q) = (e, m) := by simpa using hfx
    have hx1 : x.1 = e := congrArg Prod.fst this
    rw [hx1] at hblk
    simpa using hblk

/-- A block-kind egress is catalogued. -/
theorem isBlockEgress_catalogued {cfg : AppConfig} {e : String}
    (h : isBlockEgress cfg e = true) : (lookupKey cfg.egress e).isSome := by
  unfold isBlockEgress at h
  cases hlk : lookupKey cfg.egress e with
  | none => rw [hlk] at h; simp at h
  | some spec => simp

/-- A block-by-app hit short-circuits decide. -/
theorem decide_of_chooseBlockApp {cfg : AppConfig} {n e p : String}
    {dom : Option String} (h : chooseBlockApp cfg n = some (e, p)) :
    decide cfg (some n) dom = ⟨e, DecisionReason.blockByApp e p⟩ := by
  simp [decide, decideBlock, h]

/-! ## Claim C2 -/

/-- Claim C2: a failed reload is a no-op. For every currently loaded valid
config and every candidate document that fails to read, parse or validate,
reload returns the error, a subsequent load still sees the same config,
the reload-error counter increments by exactly one and the reload-ok counter
does not change. -/
theorem C2_reload_failure_noop (st : DaemonState)
    (_hvalid : validateb st.cfg = true)
    (readResult : Except String String)
    (parseToml : String → Except String AppConfig) (e : String)
    (hfail : loadFromPath readResult parseToml = Except.error e) :
    (reloadConfig st (loadFromPath readResult parseToml)).1 = Except.error e ∧
    (reloadConfig st (loadFromPath readResult parseToml)).2.cfg = st.cfg ∧
    (reloadConfig st (loadFromPath readResult parseToml)).2.reloadErr =
      st.reloadErr + 1 ∧
    (reloadConfig st (loadFromPath readResult parseToml)).2.reloadOk =
      st.reloadOk := by
  rw [hfail]
  exact ⟨rfl, rfl, rfl, rfl⟩

/-- Witness for claim C2: a concrete daemon state holding the scenario config
and a candidate whose file read fails. -/
theorem C2_reload_failure_noop_witness :
    (validateb stScenario.cfg = true ∧
      loadFromPath (Except.error "failed to read config")
        (fun _ => Except.error "unused") = Except.error "failed to read config") ∧
    ((reloadConfig stScenario (loadFromPath (Except.error "failed to read config")
        (fun _ => Except.error "unused"))).1 =
      Except.error "failed to read config" ∧
    (reloadConfig stScenario (loadFromPath (Except.error "failed to read config")
        (fun _ => Except.error "unused"))).2.cfg = stScenario.cfg ∧
    (reloadConfig stScenario (loadFromPath (Except.error "failed to read config")
        (fun _ => Except.error "unused"))).2.reloadErr =
      stScenario.reloadErr + 1 ∧
    (reloadConfig stScenario (loadFromPath (Except.error "failed to read config")
        (fun _ => Except.error "unused"))).2.reloadOk = stScenario.reloadOk) :=
  ⟨⟨by decide, rfl⟩,
    C2_reload_failure_noop stScenario (by decide) _ _ _ rfl⟩

/-! ## Claim C8 -/

/-- Claim C8 counterexample: on a connection whose request line cannot be
decoded, handle_conn writes no response at all; in particular it does not
write an err response, contrary to the claim. -/
theorem C8_decode_failure_counterexample :
    ¬ ∃ m, (handleConn 0 (Except.error "unused") stScenario
        (Except.error "failed to deserialize JSON")).2.2 =
      some (Response.err m) := by
  intro h
  obtain ⟨m, hm⟩ := h
  simp [handleConn] at hm

/-- Claim C8 as amended: for every connection whose single request line cannot
be decoded, handle_conn returns the decode error without writing any response
(the accept loop merely logs it), leaving the daemon state untouched; error
responses are written only for requests that decode and then fail during
handling. -/
theorem C8_decode_failure_no_response (uptimeMs : Nat)
    (loadResult : Except String AppConfig) (st : DaemonState) (e : String) :
    handleConn uptimeMs loadResult st (Except.error e) =
      (Except.error e, st, none) := rfl

/-! ## Claim C5 -/

/-- Claim C5: domain rules beat app rules among non-block egresses. With no
block-rule match, when the process name matches a non-block app rule and the
domain matches a non-block domain rule, decide returns the domain decision,
whose reason is a DomainRule, and not the app rule egress when the two
differ. -/
theorem C5_domain_beats_app (cfg : AppConfig) (n d : String)
    (adec ddec : Decision)
    (hnoblock : decideBlock cfg (some n) (some d) = none)
    (_happ : chooseApp n cfg = some adec)
    (hdom : chooseDomain d cfg = some ddec) :
    decide cfg (some n) (some d) = ddec ∧
    (∃ p k, ddec.reason = DecisionReason.domainRule ddec.egress p k) ∧
    (adec.egress ≠ ddec.egress →
      (decide cfg (some n) (some d)).egress ≠ adec.egress) := by
  have hdec : decide cfg (some n) (some d) = ddec := by
    simp [decide, hnoblock, hdom]
  refine ⟨hdec, ?_, ?_⟩
  · unfold chooseDomain chooseRule at hdom
    obtain ⟨w, hw, hfw⟩ := List.exists_of_findSome?_eq_some hdom
    cases hlw : lookupKey cfg.rulesDomain w with
    | none => rw [hlw] at hfw; simp at hfw
    | some ps =>
      rw [hlw] at hfw
      simp only [Option.some_bind] at hfw
      cases hm : domainMatchesAny ps d with
      | none => rw [hm] at hfw; simp at hfw
      | some m =>
        rw [hm] at hfw
        simp only [Option.map_some'] at hfw
        have hfw' : ddec = ⟨w, DecisionReason.domainRule w m.1 m.2⟩ :=
          (Option.some.inj hfw).symm
        subst hfw'
        exact ⟨m.1, m.2, rfl⟩
  · intro hne
    rw [hdec]
    exact hne.symm

/-- Witness for claim C5: the scenario config with process zen.exe and domain
youtube.com routes to proxy by the domain rule, not to vpn by the app rule. -/
theorem C5_domain_beats_app_witness :
    (decideBlock cfgScenario (some "zen.exe") (some "youtube.com") = none ∧
      chooseApp "zen.exe" cfgScenario =
        some ⟨"vpn", DecisionReason.appRule "vpn" "zen.exe"⟩ ∧
      chooseDomain "youtube.com" cfgScenario =
        some ⟨"proxy", DecisionReason.domainRule "proxy" "youtube.com"
          MatchKind.exact⟩) ∧
    (decide cfgScenario (some "zen.exe") (some "youtube.com") =
        ⟨"proxy", DecisionReason.domainRule "proxy" "youtube.com"
          MatchKind.exact⟩ ∧
      (∃ p k,
        (DecisionReason.domainRule "proxy" "youtube.com" MatchKind.exact) =
          DecisionReason.domainRule "proxy" p k) ∧
      ("vpn" ≠ "proxy" →
        (decide cfgScenario (some "zen.exe") (some "youtube.com")).egress ≠
          "vpn")) :=
  ⟨⟨by decide, by decide, by decide⟩,
    C5_domain_beats_app cfgScenario "zen.exe" "youtube.com"
      ⟨"vpn", DecisionReason.appRule "vpn" "zen.exe"⟩
      ⟨"proxy", DecisionReason.domainRule "proxy" "youtube.com" MatchKind.exact⟩
      (by decide) (by decide) (by decide)⟩

/-! ## Claim C6 -/

/-- Claim C6: normalization. Decide depends on the process name only through
normalize_process_name, and the claim's concrete consequences hold: both the
full path and the upper-case name normalize to zen.exe and match the app
pattern, and YouTube.COM matches the pattern youtube.com exactly. -/
theorem C6_normalization :
    (∀ (cfg : AppConfig) (dom : Option String) (n1 n2 : String),
        normalizeProcessName n1 = normalizeProcessName n2 →
        decide cfg (some n1) dom = decide cfg (some n2) dom) ∧
    normalizeProcessName "C:\\Program Files\\Zen\\zen.exe" = "zen.exe" ∧
    normalizeProcessName "ZEN.EXE" = "zen.exe" ∧
    findMatchingAppPattern ["zen.exe"]
      (normalizeProcessName "C:\\Program Files\\Zen\\zen.exe") =
      some "zen.exe" ∧
    findMatchingAppPattern ["zen.exe"] (normalizeProcessName "ZEN.EXE") =
      some "zen.exe" ∧
    normalizeDomain "YouTube.COM" = "youtube.com" ∧
    domainMatchesSuffix (normalizeDomain "YouTube.COM") "youtube.com" =
      some ("youtube.com", MatchKind.exact) := by
  refine ⟨?_, by decide, by decide, by decide, by decide, by decide, by decide⟩
  intro cfg dom n1 n2 h
  simp [decide, decideBlock, chooseBlockApp, chooseApp, h]

/-- Witness for claim C6: the two concrete process names of the claim yield
the same decision on the scenario config. -/
theorem C6_normalization_witness :
    normalizeProcessName "C:\\Program Files\\Zen\\zen.exe" =
      normalizeProcessName "ZEN.EXE" ∧
    decide cfgScenario (some "C:\\Program Files\\Zen\\zen.exe")
        (some "example.org") =
      decide cfgScenario (some "ZEN.EXE") (some "example.org") :=
  ⟨by decide,
    C6_normalization.1 cfgScenario (some "example.org") _ _ (by decide)⟩

/-! ## Claim C7 -/

/-- Claim C7: totality and default fallback. decide is a total Lean function;
on a validated config, when no block rule, domain rule or app rule matches,
the decision is the default egress with reason Default, and validation
guarantees that default egress is catalogued. -/
theorem C7_default_fallback (cfg : AppConfig) (pn dom : Option String)
    (hv : validateb cfg = true)
    (hb : decideBlock cfg pn dom = none)
    (hd : dom.bind (fun d => chooseDomain d cfg) = none)
    (ha : pn.bind (fun n => chooseApp n cfg) = none) :
    decide cfg pn dom =
      ⟨cfg.defaultsEgress, DecisionReason.default cfg.defaultsEgress⟩ ∧
    (lookupKey cfg.egress cfg.defaultsEgress).isSome = true := by
  constructor
  · simp [decide, hb, hd, ha, decideDefault]
  · have h1 : containsKey cfg.egress cfg.defaultsEgress = true := by
      unfold validateb at hv
      simp only [Bool.and_eq_true] at hv
      exact hv.1.1.1.1
    simpa [containsKey] using h1

/-- Witness for claim C7: on the scenario config, notepad.exe at
unknown.example matches nothing and falls back to the vpn default. -/
theorem C7_default_fallback_witness :
    (validateb cfgScenario = true ∧
      decideBlock cfgScenario (some "notepad.exe") (some "unknown.example") =
        none ∧
      (some "unknown.example").bind (fun d => chooseDomain d cfgScenario) =
        none ∧
      (some "notepad.exe").bind (fun n => chooseApp n cfgScenario) = none) ∧
    (decide cfgScenario (some "notepad.exe") (some "unknown.example") =
      ⟨cfgScenario.defaultsEgress,
        DecisionReason.default cfgScenario.defaultsEgress⟩ ∧
    (lookupKey cfgScenario.egress cfgScenario.defaultsEgress).isSome = true) :=
  ⟨⟨by decide, by decide, by decide, by decide⟩,
    C7_default_fallback cfgScenario (some "notepad.exe")
      (some "unknown.example") (by decide) (by decide) (by decide) (by decide)⟩

/-! ## Claim C3 -/

/-- Claim C3 counterexample: the pattern consisting of a single dot normalizes
to the empty string, equal to the normalization of the domain consisting of a
single dot, yet domain_matches_suffix returns no match at all, so an Exact
match is not equivalent to equality of the normalized strings. -/
theorem C3_domain_matching_counterexample :
    normalizeDomain "." = normalizeDomainPattern "." ∧
    domainMatchesSuffix (normalizeDomain ".") "." = none ∧
    domainMatchesAny ["."] "." = none := by decide

/-- Claim C3 as amended: for every domain and every domain pattern whose
normalization (trim, strip trailing dots, lowercase, strip one optional
leading dot) is non-empty, the pattern matches with kind Exact iff the
normalized strings are equal, and with kind Suffix iff they differ and the
normalized domain ends with a dot followed by the normalized pattern; a
pattern that normalizes to the empty string matches nothing. The claim's
concrete googlevideo.com examples hold as stated. -/
theorem C3_domain_matching :
    (∀ domain rawPattern : String,
      normalizeDomainPattern rawPattern ≠ "" →
      ((domainMatchesSuffix (normalizeDomain domain) rawPattern =
          some (trimStr rawPattern, MatchKind.exact) ↔
        normalizeDomain domain = normalizeDomainPattern rawPattern) ∧
      (domainMatchesSuffix (normalizeDomain domain) rawPattern =
          some (trimStr rawPattern, MatchKind.suffix) ↔
        (normalizeDomain domain ≠ normalizeDomainPattern rawPattern ∧
          endsWith (normalizeDomain domain)
            (String.mk ('.' :: (normalizeDomainPattern rawPattern).data)) =
            true)))) ∧
    domainMatchesSuffix (normalizeDomain "r1---sn-abcdef.googlevideo.com")
        "googlevideo.com" = some ("googlevideo.com", MatchKind.suffix) ∧
    domainMatchesSuffix (normalizeDomain "googlevideo.com")
        "googlevideo.com" = some ("googlevideo.com", MatchKind.exact) ∧
    domainMatchesSuffix (normalizeDomain "notgooglevideo.com")
        "googlevideo.com" = none := by
  refine ⟨?_, by decide, by decide, by decide⟩
  intro domain rawPattern hne
  simp only [normalizeDomainPattern] at hne ⊢
  have hsr : ¬ (lowerStr (rstripDots (trimStr rawPattern)) = "") := by
    intro h
    apply hne
    rw [h]
    rfl
  simp only [domainMatchesSuffix]
  rw [if_neg hsr]
  by_cases heq : normalizeDomain domain =
      stripLeadingDot (lowerStr (rstripDots (trimStr rawPattern)))
  · rw [if_pos heq]
    refine ⟨⟨fun _ => heq, fun _ => rfl⟩, ⟨fun h => ?_, fun h => absurd heq h.1⟩⟩
    simp at h
  · rw [if_neg heq]
    by_cases hend : endsWith (normalizeDomain domain)
        (String.mk ('.' ::
          (stripLeadingDot (lowerStr (rstripDots (trimStr rawPattern)))).data)) =
        true
    · rw [if_pos hend]
      refine ⟨⟨fun h => ?_, fun h => absurd h heq⟩,
        ⟨fun _ => ⟨heq, hend⟩, fun _ => rfl⟩⟩
      simp at h
    · rw [if_neg hend]
      exact ⟨⟨fun h => Option.noConfusion h, fun h => absurd h heq⟩,
        ⟨fun h => Option.noConfusion h, fun h => absurd h.2 hend⟩⟩

/-- Witness for claim C3: the characterization applied to the claim's own
concrete pattern and suffix-matching domain. -/
theorem C3_domain_matching_witness :
    normalizeDomainPattern "googlevideo.com" ≠ "" ∧
    ((domainMatchesSuffix (normalizeDomain "r1---sn-abcdef.googlevideo.com")
        "googlevideo.com" =
        some (trimStr "googlevideo.com", MatchKind.exact) ↔
      normalizeDomain "r1---sn-abcdef.googlevideo.com" =
        normalizeDomainPattern "googlevideo.com") ∧
    (domainMatchesSuffix (normalizeDomain "r1---sn-abcdef.googlevideo.com")
        "googlevideo.com" =
        some (trimStr "googlevideo.com", MatchKind.suffix) ↔
      (normalizeDomain "r1---sn-abcdef.googlevideo.com" ≠
        normalizeDomainPattern "googlevideo.com" ∧
        endsWith (normalizeDomain "r1---sn-abcdef.googlevideo.com")
          (String.mk ('.' ::
            (normalizeDomainPattern "googlevideo.com").data)) = true))) :=
  ⟨by decide,
    C3_domain_matching.1 "r1---sn-abcdef.googlevideo.com" "googlevideo.com"
      (by decide)⟩

/-! ## Claim C1 -/

/-- Claim C1 counterexample: in the validated config cfgBlankPat the block
egress blk owns the app pattern " b", and the process name "x/ b" normalizes
to " b", which equals that pattern (so in particular equals it
case-insensitively); yet decide does not return the block egress but the
default, because the pattern itself is path-normalized to "b" before
comparison. -/
theorem C1_block_precedence_counterexample :
    validateb cfgBlankPat = true ∧
    SortedKeys cfgBlankPat.rulesApp ∧
    lookupKey cfgBlankPat.rulesApp "blk" = some [" b"] ∧
    isBlockEgress cfgBlankPat "blk" = true ∧
    normalizeProcessName "x/ b" = " b" ∧
    lowerStr (normalizeProcessName "x/ b") = lowerStr " b" ∧
    decide cfgBlankPat (some "x/ b") none =
      ⟨"direct", DecisionReason.default "direct"⟩ ∧
    "direct" ≠ "blk" := by decide

/-- Claim C1 as amended: block precedence. For every config whose app rule
map keys are ascending and every process name whose normalization equals the
process-name normalization of an app pattern owned by a block-kind egress,
decide returns a block egress with reason BlockByApp regardless of the
domain argument, and that egress is the least (in ascending EgressId order)
block-kind egress owning a matching pattern — in particular no later block
egress than the hypothesized one. -/
theorem C1_block_precedence (cfg : AppConfig) (name : String)
    (dom : Option String) (hsorted : SortedKeys cfg.rulesApp)
    (e : String) (ps : List String)
    (hlk : lookupKey cfg.rulesApp e = some ps)
    (hblk : isBlockEgress cfg e = true)
    (hmatch : (findMatchingAppPattern ps (normalizeProcessName name)).isSome =
      true) :
    ∃ eb pb, decide cfg (some name) dom =
        ⟨eb, DecisionReason.blockByApp eb pb⟩ ∧
      isBlockEgress cfg eb = true ∧ idLe eb e ∧
      ∀ e₂ ps₂, lookupKey cfg.rulesApp e₂ = some ps₂ →
        isBlockEgress cfg e₂ = true →
        (findMatchingAppPattern ps₂ (normalizeProcessName name)).isSome =
          true →
        idLe eb e₂ := by
  have hsorted' : cfg.rulesApp.Pairwise (fun a b => idLt a.1 b.1) := hsorted
  have hpfl : (cfg.rulesApp.filter (fun x => isBlockEgress cfg x.1)).Pairwise
      (fun a b => idLt a.1 b.1) := hsorted'.filter _
  have hmemfl : (e, ps) ∈ cfg.rulesApp.filter (fun x => isBlockEgress cfg x.1) :=
    List.mem_filter.mpr ⟨lookupKey_mem hlk, hblk⟩
  have hfsome : ((findMatchingAppPattern (e, ps).2
      (normalizeProcessName name)).map (fun p => ((e, ps).1, p))).isSome := by
    simpa using hmatch
  have hsome : (chooseBlockApp cfg name).isSome := by
    simp only [chooseBlockApp]
    exact List.findSome?_isSome_iff.mpr ⟨(e, ps), hmemfl, hfsome⟩
  obtain ⟨ebpb, heb⟩ := Option.isSome_iff_exists.mp hsome
  obtain ⟨eb, pb⟩ := ebpb
  have hdec : decide cfg (some name) dom =
      ⟨eb, DecisionReason.blockByApp eb pb⟩ :=
    decide_of_chooseBlockApp heb
  have hblkeb := chooseBlockApp_isBlock heb
  have heb' : (cfg.rulesApp.filter (fun x => isBlockEgress cfg x.1)).findSome?
      (fun x => (findMatchingAppPattern x.2 (normalizeProcessName name)).map
        (fun p => (x.1, p))) = some (eb, pb) := heb
  obtain ⟨a, hafl, hfa, hmin⟩ := findSome?_first_min hpfl heb'
  have ha1 : a.1 = eb := by
    cases hf : findMatchingAppPattern a.2 (normalizeProcessName name) with
    | none => rw [hf] at hfa; simp at hfa
    | some q =>
      rw [hf] at hfa
      simp only [Option.map_some'] at hfa
      exact congrArg Prod.fst (Option.some.inj hfa)
  have hminE : ∀ e₂ ps₂, lookupKey cfg.rulesApp e₂ = some ps₂ →
      isBlockEgress cfg e₂ = true →
      (findMatchingAppPattern ps₂ (normalizeProcessName name)).isSome = true →
      idLe eb e₂ := by
    intro e₂ ps₂ hlk₂ hblk₂ hm₂
    have hmem₂ : (e₂, ps₂) ∈
        cfg.rulesApp.filter (fun x => isBlockEgress cfg x.1) :=
      List.mem_filter.mpr ⟨lookupKey_mem hlk₂, hblk₂⟩
    have hf₂ : ((findMatchingAppPattern (e₂, ps₂).2
        (normalizeProcessName name)).map (fun p => ((e₂, ps₂).1, p))).isSome := by
      simpa using hm₂
    rcases hmin (e₂, ps₂) hmem₂ hf₂ with h | h
    · have : eb = e₂ := by rw [← ha1, h]
      rw [this]
      exact idLe_refl e₂
    · exact idLe_of_idLt (ha1 ▸ h)
  exact ⟨eb, pb, hdec, hblkeb, hminE e ps hlk hblk hmatch, hminE⟩

/-- Witness for claim C1: on the scenario config, bad.exe is blocked even
though youtube.com simultaneously matches the proxy domain rule. -/
theorem C1_block_precedence_witness :
    (SortedKeys cfgScenario.rulesApp ∧
      lookupKey cfgScenario.rulesApp "block" = some ["bad.exe"] ∧
      isBlockEgress cfgScenario "block" = true ∧
      (findMatchingAppPattern ["bad.exe"]
        (normalizeProcessName "bad.exe")).isSome = true) ∧
    (∃ eb pb, decide cfgScenario (some "bad.exe") (some "youtube.com") =
        ⟨eb, DecisionReason.blockByApp eb pb⟩ ∧
      isBlockEgress cfgScenario eb = true ∧ idLe eb "block" ∧
      ∀ e₂ ps₂, lookupKey cfgScenario.rulesApp e₂ = some ps₂ →
        isBlockEgress cfgScenario e₂ = true →
        (findMatchingAppPattern ps₂
          (normalizeProcessName "bad.exe")).isSome = true →
        idLe eb e₂) :=
  ⟨⟨by decide, by decide, by decide, by decide⟩,
    C1_block_precedence cfgScenario "bad.exe" (some "youtube.com")
      (by decide) "block" ["bad.exe"] (by decide) (by decide) (by decide)⟩

/-! ## Claim C4 -/

/-- Claim C4: priority ordering among non-block egresses. In the domain-rule
step and in the app-rule step, whenever two non-block rule-owning egresses
both match the input and the first precedes the second in (kind rank,
EgressId) order — singbox before socks5 before direct, ties broken by the
lexicographically smaller id — the step returns a decision whose egress is at
most the first in that order, and never the second. -/
theorem C4_priority_ordering (cfg : AppConfig) (_hv : validateb cfg = true) :
    (∀ (d e1 e2 : String) (r1 r2 : Nat) (ps1 ps2 : List String),
      lookupKey cfg.rulesDomain e1 = some ps1 → kindRankOf cfg e1 = some r1 →
      (domainMatchesAny ps1 d).isSome = true →
      lookupKey cfg.rulesDomain e2 = some ps2 → kindRankOf cfg e2 = some r2 →
      (domainMatchesAny ps2 d).isSome = true →
      (r1 < r2 ∨ (r1 = r2 ∧ idLt e1 e2)) →
      ∃ dec rw, chooseDomain d cfg = some dec ∧
        kindRankOf cfg dec.egress = some rw ∧
        (rw < r1 ∨ (rw = r1 ∧ idLe dec.egress e1)) ∧ dec.egress ≠ e2) ∧
    (∀ (n e1 e2 : String) (r1 r2 : Nat) (ps1 ps2 : List String),
      lookupKey cfg.rulesApp e1 = some ps1 → kindRankOf cfg e1 = some r1 →
      (findMatchingAppPattern ps1 (normalizeProcessName n)).isSome = true →
      lookupKey cfg.rulesApp e2 = some ps2 → kindRankOf cfg e2 = some r2 →
      (findMatchingAppPattern ps2 (normalizeProcessName n)).isSome = true →
      (r1 < r2 ∨ (r1 = r2 ∧ idLt e1 e2)) →
      ∃ dec rw, chooseApp n cfg = some dec ∧
        kindRankOf cfg dec.egress = some rw ∧
        (rw < r1 ∨ (rw = r1 ∧ idLe dec.egress e1)) ∧ dec.egress ≠ e2) := by
  constructor
  · intro d e1 e2 r1 r2 ps1 ps2 hlk1 hr1 hm1 hlk2 hr2 hm2 hlt
    have hmk : ∀ (e : String) (v : List String) (dd : Decision),
        (domainMatchesAny v d).map
          (fun m => Decision.mk e (DecisionReason.domainRule e m.1 m.2)) =
          some dd → dd.egress = e := by
      intro e v dd h
      cases hm : domainMatchesAny v d with
      | none => rw [hm] at h; cases h
      | some m =>
        rw [hm] at h
        simp only [Option.map_some'] at h
        have h' := Option.some.inj h
        subst h'
        rfl
    obtain ⟨dec, rw', hsome, hrw, hmin⟩ :=
      chooseRule_min hmk hlk1 hr1 (by simpa using hm1)
    have hmin1 := hmin e1 r1 ps1 hlk1 hr1 (by simpa using hm1)
    have hmin2 := hmin e2 r2 ps2 hlk2 hr2 (by simpa using hm2)
    refine ⟨dec, rw', hsome, hrw, hmin1, ?_⟩
    intro heq2
    rw [heq2, hr2] at hrw
    have hrw2 : r2 = rw' := Option.some.inj hrw
    rcases hmin1 with hlt1 | ⟨heqr, hle1⟩
    · rcases hlt with h | ⟨h, _⟩
      · exact absurd (Nat.lt_trans (h.trans_eq hrw2) hlt1) (Nat.lt_irrefl r1)
      · rw [h, hrw2] at hlt1
        exact absurd hlt1 (Nat.lt_irrefl rw')
    · rcases hlt with h | ⟨_, h⟩
      · rw [← heqr, ← hrw2] at h
        exact absurd h (Nat.lt_irrefl r2)
      · exact idLt_not_idLe h (heq2 ▸ hle1)
  · intro n e1 e2 r1 r2 ps1 ps2 hlk1 hr1 hm1 hlk2 hr2 hm2 hlt
    have hmk : ∀ (e : String) (v : List String) (dd : Decision),
        (findMatchingAppPattern v (normalizeProcessName n)).map
          (fun p => Decision.mk e (DecisionReason.appRule e p)) =
          some dd → dd.egress = e := by
      intro e v dd h
      cases hm : findMatchingAppPattern v (normalizeProcessName n) with
      | none => rw [hm] at h; cases h
      | some p =>
        rw [hm] at h
        simp only [Option.map_some'] at h
        have h' := Option.some.inj h
        subst h'
        rfl
    obtain ⟨dec, rw', hsome, hrw, hmin⟩ :=
      chooseRule_min hmk hlk1 hr1 (by simpa using hm1)
    have hmin1 := hmin e1 r1 ps1 hlk1 hr1 (by simpa using hm1)
    have hmin2 := hmin e2 r2 ps2 hlk2 hr2 (by simpa using hm2)
    refine ⟨dec, rw', hsome, hrw, hmin1, ?_⟩
    intro heq2
    rw [heq2, hr2] at hrw
    have hrw2 : r2 = rw' := Option.some.inj hrw
    rcases hmin1 with hlt1 | ⟨heqr, hle1⟩
    · rcases hlt with h | ⟨h, _⟩
      · exact absurd (Nat.lt_trans (h.trans_eq hrw2) hlt1) (Nat.lt_irrefl r1)
      · rw [h, hrw2] at hlt1
        exact absurd hlt1 (Nat.lt_irrefl rw')
    · rcases hlt with h | ⟨_, h⟩
      · rw [← heqr, ← hrw2] at h
        exact absurd h (Nat.lt_irrefl r2)
      · exact idLt_not_idLe h (heq2 ▸ hle1)

/-- Witness for claim C4: with domain rules on both vpn (singbox, rank 0) and
direct (rank 2) for example.com, the domain step picks vpn, and likewise for
the app step with zen.exe. -/
theorem C4_priority_ordering_witness :
    (validateb cfgPrio = true ∧
      lookupKey cfgPrio.rulesDomain "vpn" = some ["example.com"] ∧
      kindRankOf cfgPrio "vpn" = some 0 ∧
      (domainMatchesAny ["example.com"] "example.com").isSome = true ∧
      lookupKey cfgPrio.rulesDomain "direct" = some ["example.com"] ∧
      kindRankOf cfgPrio "direct" = some 2 ∧
      (0 < 2 ∨ (0 = 2 ∧ idLt "vpn" "direct"))) ∧
    (∃ dec rw, chooseDomain "example.com" cfgPrio = some dec ∧
      kindRankOf cfgPrio dec.egress = some rw ∧
      (rw < 0 ∨ (rw = 0 ∧ idLe dec.egress "vpn")) ∧ dec.egress ≠ "direct") :=
  ⟨⟨by decide, by decide, by decide, by decide, by decide, by decide,
      Or.inl (by decide)⟩,
    (C4_priority_ordering cfgPrio (by decide)).1 "example.com" "vpn" "direct"
      0 2 ["example.com"] ["example.com"] (by decide) (by decide) (by decide)
      (by decide) (by decide) (by decide) (Or.inl (by decide))⟩

/-! ## Claim C9 -/

/-- Every decision built by the domain-rule matcher names its own egress. -/
theorem domainRuleMk_egress (d : String) (e : String) (v : List String)
    (dd : Decision)
    (h : (domainMatchesAny v d).map
      (fun m => Decision.mk e (DecisionReason.domainRule e m.1 m.2)) =
      some dd) : dd.egress = e := by
  cases hm : domainMatchesAny v d with
  | none => rw [hm] at h; cases h
  | some m =>
    rw [hm] at h
    simp only [Option.map_some'] at h
    have h' := Option.some.inj h
    subst h'
    rfl

/-- Every decision built by the app-rule matcher names its own egress. -/
theorem appRuleMk_egress (v0 : String) (e : String) (v : List String)
    (dd : Decision)
    (h : (findMatchingAppPattern v v0).map
      (fun p => Decision.mk e (DecisionReason.appRule e p)) = some dd) :
    dd.egress = e := by
  cases hm : findMatchingAppPattern v v0 with
  | none => rw [hm] at h; cases h
  | some p =>
    rw [hm] at h
    simp only [Option.map_some'] at h
    have h' := Option.some.inj h
    subst h'
    rfl

/-- Claim C9: the decision egress is always in the catalogue. For every
config that passes validate and any inputs, the egress id of the decision
decide returns is a key of the egress catalogue: block matches are filtered
to catalogued block-kind ids, non-block rule candidates are dropped unless
catalogued, and the default is validated to be a catalogue key. -/
theorem C9_decision_egress_catalogued (cfg : AppConfig)
    (pn dom : Option String) (hv : validateb cfg = true) :
    (lookupKey cfg.egress (decide cfg pn dom).egress).isSome = true := by
  have hdefault : (lookupKey cfg.egress cfg.defaultsEgress).isSome = true := by
    unfold validateb at hv
    simp only [Bool.and_eq_true] at hv
    simpa [containsKey] using hv.1.1.1.1
  cases hb : decideBlock cfg pn dom with
  | some d =>
    have hdec : decide cfg pn dom = d := by simp [decide, hb]
    rw [hdec]
    unfold decideBlock at hb
    cases hba : pn.bind (fun n => chooseBlockApp cfg n) with
    | some ep =>
      rw [hba] at hb
      obtain ⟨e, p⟩ := ep
      have hde : d = ⟨e, DecisionReason.blockByApp e p⟩ :=
        (Option.some.inj hb).symm
      cases hpn : pn with
      | none => rw [hpn] at hba; cases hba
      | some n =>
        rw [hpn] at hba
        simp only [Option.some_bind] at hba
        rw [hde]
        exact isBlockEgress_catalogued (chooseBlockApp_isBlock hba)
    | none =>
      rw [hba] at hb
      cases hbd : dom.bind (fun x => chooseBlockDomain cfg x) with
      | none => rw [hbd] at hb; cases hb
      | some em =>
        rw [hbd] at hb
        obtain ⟨e, m⟩ := em
        have hde : d = ⟨e, DecisionReason.blockByDomain e m.1 m.2⟩ :=
          (Option.some.inj hb).symm
        cases hdm : dom with
        | none => rw [hdm] at hbd; cases hbd
        | some dd =>
          rw [hdm] at hbd
          simp only [Option.some_bind] at hbd
          rw [hde]
          exact isBlockEgress_catalogued (chooseBlockDomain_isBlock hbd)
  | none =>
    cases hd : dom.bind (fun x => chooseDomain x cfg) with
    | some d =>
      have hdec : decide cfg pn dom = d := by simp [decide, hb, hd]
      rw [hdec]
      cases hdm : dom with
      | none => rw [hdm] at hd; cases hd
      | some dd =>
        rw [hdm] at hd
        simp only [Option.some_bind] at hd
        have hd' : chooseRule cfg cfg.rulesDomain (fun eg pats =>
            (domainMatchesAny pats dd).map
              (fun m => Decision.mk eg (DecisionReason.domainRule eg m.1 m.2))) =
            some d := hd
        exact chooseRule_catalogued
          (fun e v dcs h => domainRuleMk_egress dd e v dcs h) hd'
    | none =>
      cases ha : pn.bind (fun x => chooseApp x cfg) with
      | some d =>
        have hdec : decide cfg pn dom = d := by simp [decide, hb, hd, ha]
        rw [hdec]
        cases hpn : pn with
        | none => rw [hpn] at ha; cases ha
        | some n =>
          rw [hpn] at ha
          simp only [Option.some_bind] at ha
          have ha' : chooseRule cfg cfg.rulesApp (fun eg pats =>
              (findMatchingAppPattern pats (normalizeProcessName n)).map
                (fun p => Decision.mk eg (DecisionReason.appRule eg p))) =
              some d := ha
          exact chooseRule_catalogued
            (fun e v dcs h =>
              appRuleMk_egress (normalizeProcessName n) e v dcs h) ha'
      | none =>
        have hdec : decide cfg pn dom = decideDefault cfg := by
          simp [decide, hb, hd, ha]
        rw [hdec]
        exact hdefault

/-- Witness for claim C9 on the scenario config with a blocked process and a
proxied domain. -/
theorem C9_decision_egress_catalogued_witness :
    validateb cfgScenario = true ∧
    (lookupKey cfgScenario.egress
      (decide cfgScenario (some "bad.exe") (some "youtube.com")).egress).isSome =
      true :=
  ⟨by decide,
    C9_decision_egress_catalogued cfgScenario (some "bad.exe")
      (some "youtube.com") (by decide)⟩

/-! ## Claim C10 -/

/-- findSome? results projected through prj agree when the entrywise results
do. -/
theorem findSome?_map_prj_congr {α β γ : Type} {l : List α}
    {F G : α → Option β} {prj : β → γ}
    (h : ∀ a ∈ l, Option.map prj (F a) = Option.map prj (G a)) :
    Option.map prj (l.findSome? F) = Option.map prj (l.findSome? G) := by
  induction l with
  | nil => simp
  | cons x xs ih =>
    have hx := h x (List.mem_cons_self x xs)
    cases hFx : F x with
    | some b =>
      rw [hFx] at hx
      cases hGx : G x with
      | none => rw [hGx] at hx; simp at hx
      | some b' =>
        rw [hGx] at hx
        have e1 : (x :: xs).findSome? F = F x :=
          List.findSome?_cons_of_isSome xs (by simp [hFx])
        have e2 : (x :: xs).findSome? G = G x :=
          List.findSome?_cons_of_isSome xs (by simp [hGx])
        rw [e1, e2, hFx, hGx]
        exact hx
    | none =>
      rw [hFx] at hx
      cases hGx : G x with
      | some b' => rw [hGx] at hx; simp at hx
      | none =>
        have e1 : (x :: xs).findSome? F = xs.findSome? F :=
          List.findSome?_cons_of_isNone xs (by simp [hFx])
        have e2 : (x :: xs).findSome? G = xs.findSome? G :=
          List.findSome?_cons_of_isNone xs (by simp [hGx])
        rw [e1, e2]
        exact ih (fun a ha => h a (List.mem_cons_of_mem _ ha))

/-- Constant-mapped options agree when their isSome flags agree. -/
theorem map_const_eq_of_isSome_eq {α β γ : Type} {o1 : Option α}
    {o2 : Option β} (c : γ) (h : o1.isSome = o2.isSome) :
    Option.map (fun _ => c) o1 = Option.map (fun _ => c) o2 := by
  cases o1 <;> cases o2 <;> simp_all

/-- A pattern list matches a normalized value iff its normalized copy does,
provided normalization is idempotent on its members. -/
theorem findMatchingAppPattern_map_isSome {ps : List String} {v : String}
    (hid : ∀ p ∈ ps, normalizeProcessName (normalizeProcessName p) =
      normalizeProcessName p) :
    (findMatchingAppPattern (ps.map normalizeProcessName) v).isSome =
      (findMatchingAppPattern ps v).isSome := by
  unfold findMatchingAppPattern
  rw [Bool.eq_iff_iff, List.find?_isSome, List.find?_isSome]
  constructor
  · rintro ⟨q, hq, hpred⟩
    obtain ⟨p, hp, hqp⟩ := List.mem_map.mp hq
    refine ⟨p, hp, ?_⟩
    have hpred' : normalizeProcessName (normalizeProcessName p) = v := by
      rw [hqp]
      simpa using hpred
    rw [hid p hp] at hpred'
    simpa using hpred'
  · rintro ⟨p, hp, hpred⟩
    refine ⟨normalizeProcessName p, List.mem_map_of_mem _ hp, ?_⟩
    have hpred' : normalizeProcessName p = v := by simpa using hpred
    simp only [hid p hp]
    simpa using hpred'

/-- choose_block_app on the pattern-normalized config hits the same egress,
under idempotent normalization of the owned patterns. -/
theorem chooseBlockApp_normalize_fst (cfg : AppConfig)
    (hid : ∀ entry ∈ cfg.rulesApp, ∀ p ∈ entry.2,
      normalizeProcessName (normalizeProcessName p) = normalizeProcessName p)
    (n : String) :
    Option.map Prod.fst (chooseBlockApp (normalizeAppPatterns cfg) n) =
      Option.map Prod.fst (chooseBlockApp cfg n) := by
  have hblk : ∀ x, isBlockEgress (normalizeAppPatterns cfg) x =
      isBlockEgress cfg x := fun _ => rfl
  simp only [chooseBlockApp, normalizeAppPatterns]
  rw [List.filter_map]
  rw [List.findSome?_map]
  apply findSome?_map_prj_congr
  intro a ha
  have hamem : a ∈ cfg.rulesApp := (List.mem_filter.mp ha).1
  have hida := hid a hamem
  simp only [Function.comp]
  rw [Option.map_map, Option.map_map]
  exact map_const_eq_of_isSome_eq a.1 (findMatchingAppPattern_map_isSome hida)

/-- The ordered non-block rule egresses are unchanged by app-pattern
normalization. -/
theorem orderedNonBlockRuleEgresses_normalize (cfg : AppConfig) :
    orderedNonBlockRuleEgresses (normalizeAppPatterns cfg)
        (normalizeAppPatterns cfg).rulesApp =
      orderedNonBlockRuleEgresses cfg cfg.rulesApp := by
  have hr : rankedRuleEgresses (normalizeAppPatterns cfg)
      (normalizeAppPatterns cfg).rulesApp =
      rankedRuleEgresses cfg cfg.rulesApp := by
    simp only [rankedRuleEgresses, normalizeAppPatterns]
    rw [List.filterMap_map]
    rfl
  simp only [orderedNonBlockRuleEgresses, hr]

/-- Looking up a rule key in the pattern-normalized app map yields the
normalized copy of the original pattern list. -/
theorem lookupKey_normalize (cfg : AppConfig) (eg : String) :
    lookupKey (normalizeAppPatterns cfg).rulesApp eg =
      Option.map (List.map normalizeProcessName) (lookupKey cfg.rulesApp eg) := by
  simp only [lookupKey, normalizeAppPatterns]
  rw [List.find?_map]
  rw [Option.map_map, Option.map_map]
  rfl

/-- choose_app on the pattern-normalized config picks the same egress, under
idempotent normalization of the owned patterns. -/
theorem chooseApp_normalize_egress (cfg : AppConfig)
    (hid : ∀ entry ∈ cfg.rulesApp, ∀ p ∈ entry.2,
      normalizeProcessName (normalizeProcessName p) = normalizeProcessName p)
    (n : String) :
    Option.map Decision.egress (chooseApp n (normalizeAppPatterns cfg)) =
      Option.map Decision.egress (chooseApp n cfg) := by
  simp only [chooseApp, chooseRule]
  rw [orderedNonBlockRuleEgresses_normalize]
  apply findSome?_map_prj_congr
  intro eg _
  rw [lookupKey_normalize]
  cases hlk : lookupKey cfg.rulesApp eg with
  | none => simp
  | some ps =>
    have hmem : (eg, ps) ∈ cfg.rulesApp := lookupKey_mem hlk
    have hidps := hid (eg, ps) hmem
    simp only [Option.map_some', Option.some_bind]
    rw [Option.map_map, Option.map_map]
    exact map_const_eq_of_isSome_eq eg
      (findMatchingAppPattern_map_isSome hidps)

/-- Replacing every app pattern by its normalization preserves the egress of
every decision, provided normalization is idempotent on the owned patterns. -/
theorem decide_normalizeAppPatterns_egress (cfg : AppConfig)
    (hid : ∀ entry ∈ cfg.rulesApp, ∀ p ∈ entry.2,
      normalizeProcessName (normalizeProcessName p) = normalizeProcessName p)
    (pn dom : Option String) :
    (decide (normalizeAppPatterns cfg) pn dom).egress =
      (decide cfg pn dom).egress := by
  cases pn with
  | none => rfl
  | some n =>
    cases hba : chooseBlockApp cfg n with
    | some ep =>
      obtain ⟨e, p⟩ := ep
      have hA := chooseBlockApp_normalize_fst cfg hid n
      rw [hba] at hA
      cases hba' : chooseBlockApp (normalizeAppPatterns cfg) n with
      | none => rw [hba'] at hA; simp at hA
      | some ep' =>
        obtain ⟨e', p'⟩ := ep'
        rw [hba'] at hA
        simp only [Option.map_some'] at hA
        have he : e' = e := Option.some.inj hA
        have h1 : decide cfg (some n) dom =
            ⟨e, DecisionReason.blockByApp e p⟩ :=
          decide_of_chooseBlockApp hba
        have h2 : decide (normalizeAppPatterns cfg) (some n) dom =
            ⟨e', DecisionReason.blockByApp e' p'⟩ :=
          decide_of_chooseBlockApp hba'
        rw [h1, h2, he]
    | none =>
      have hA := chooseBlockApp_normalize_fst cfg hid n
      rw [hba] at hA
      cases hba' : chooseBlockApp (normalizeAppPatterns cfg) n with
      | some ep' => rw [hba'] at hA; simp at hA
      | none =>
        have hcbd : ∀ x, chooseBlockDomain (normalizeAppPatterns cfg) x =
            chooseBlockDomain cfg x := fun _ => rfl
        have hcd : ∀ x, chooseDomain x (normalizeAppPatterns cfg) =
            chooseDomain x cfg := fun _ => rfl
        cases hbd : dom.bind (fun x => chooseBlockDomain cfg x) with
        | some em =>
          obtain ⟨e, m⟩ := em
          have hdb1 : decideBlock cfg (some n) dom =
              some ⟨e, DecisionReason.blockByDomain e m.1 m.2⟩ := by
            simp [decideBlock, hba, hbd]
          have hdb2 : decideBlock (normalizeAppPatterns cfg) (some n) dom =
              some ⟨e, DecisionReason.blockByDomain e m.1 m.2⟩ := by
            simp [decideBlock, hba', hcbd, hbd]
          simp [decide, hdb1, hdb2]
        | none =>
          have hdb1 : decideBlock cfg (some n) dom = none := by
            simp [decideBlock, hba, hbd]
          have hdb2 : decideBlock (normalizeAppPatterns cfg) (some n) dom =
              none := by
            simp [decideBlock, hba', hcbd, hbd]
          cases hd : dom.bind (fun x => chooseDomain x cfg) with
          | some dd =>
            have hd2 : dom.bind
                (fun x => chooseDomain x (normalizeAppPatterns cfg)) =
                some dd := by
              simpa [hcd] using hd
            simp [decide, hdb1, hdb2, hd, hd2]
          | none =>
            have hd2 : dom.bind
                (fun x => chooseDomain x (normalizeAppPatterns cfg)) =
                none := by
              simpa [hcd] using hd
            have hB := chooseApp_normalize_egress cfg hid n
            cases ha : chooseApp n cfg with
            | some ad =>
              rw [ha] at hB
              cases ha' : chooseApp n (normalizeAppPatterns cfg) with
              | none => rw [ha'] at hB; simp at hB
              | some ad' =>
                rw [ha'] at hB
                simp only [Option.map_some'] at hB
                have he : ad'.egress = ad.egress := Option.some.inj hB
                have h1 : decide cfg (some n) dom = ad := by
                  simp [decide, hdb1, hd, ha]
                have h2 : decide (normalizeAppPatterns cfg) (some n) dom =
                    ad' := by
                  simp [decide, hdb2, hd2, ha']
                rw [h1, h2, he]
            | none =>
              rw [ha] at hB
              cases ha' : chooseApp n (normalizeAppPatterns cfg) with
              | some ad' => rw [ha'] at hB; simp at hB
              | none =>
                have h1 : decide cfg (some n) dom = decideDefault cfg := by
                  simp [decide, hdb1, hd, ha]
                have h2 : decide (normalizeAppPatterns cfg) (some n) dom =
                    decideDefault (normalizeAppPatterns cfg) := by
                  simp [decide, hdb2, hd2, ha']
                rw [h1, h2]
                rfl

/-- Claim C10 counterexample: replacing an app pattern by its lowercased
basename does change the result of decide. With the full-path pattern the
decision's reason carries the original pattern text, so the Decision differs
after the rewrite; and with a pattern whose basename has a leading space the
rewrite even changes the chosen egress, because pattern normalization is not
idempotent there. -/
theorem C10_pattern_normalization_counterexample :
    validateb cfgPathPat = true ∧ validateb cfgWsPat = true ∧
    decide cfgPathPat (some "bad.exe") none =
      ⟨"vpn", DecisionReason.appRule "vpn" "C:\\Tools\\bad.exe"⟩ ∧
    decide (normalizeAppPatterns cfgPathPat) (some "bad.exe") none =
      ⟨"vpn", DecisionReason.appRule "vpn" "bad.exe"⟩ ∧
    decide (normalizeAppPatterns cfgPathPat) (some "bad.exe") none ≠
      decide cfgPathPat (some "bad.exe") none ∧
    decide cfgWsPat (some "x/ b") none =
      ⟨"vpn", DecisionReason.appRule "vpn" "a/ b"⟩ ∧
    decide (normalizeAppPatterns cfgWsPat) (some "x/ b") none =
      ⟨"direct", DecisionReason.default "direct"⟩ ∧
    (decide (normalizeAppPatterns cfgWsPat) (some "x/ b") none).egress ≠
      (decide cfgWsPat (some "x/ b") none).egress := by decide

/-- Claim C10 as amended: app patterns are compared through the full
process-name normalization — any matched pattern's normalization equals the
normalized value, and a full-path pattern like C:\Tools\bad.exe matches the
bare process name bad.exe. Replacing every app pattern by its lowercased
basename preserves the chosen egress of decide for every input whenever
normalization is idempotent on the patterns (in particular whenever no
basename carries surrounding whitespace); the full Decision may still differ,
since the reason reports the original pattern text. -/
theorem C10_pattern_normalization :
    (∀ cfg : AppConfig,
      (∀ entry ∈ cfg.rulesApp, ∀ p ∈ entry.2,
        normalizeProcessName (normalizeProcessName p) =
          normalizeProcessName p) →
      ∀ pn dom : Option String,
        (decide (normalizeAppPatterns cfg) pn dom).egress =
          (decide cfg pn dom).egress) ∧
    (∀ (ps : List String) (v p : String),
      findMatchingAppPattern ps v = some p → normalizeProcessName p = v) ∧
    findMatchingAppPattern ["C:\\Tools\\bad.exe"]
      (normalizeProcessName "bad.exe") = some "C:\\Tools\\bad.exe" := by
  refine ⟨decide_normalizeAppPatterns_egress, ?_, by decide⟩
  intro ps v p h
  have hpred := List.find?_some h
  simpa using hpred

/-- Witness for claim C10: the scenario config's patterns are already
normalized, so rewriting them does not change the blocked egress for
bad.exe. -/
theorem C10_pattern_normalization_witness :
    (∀ entry ∈ cfgScenario.rulesApp, ∀ p ∈ entry.2,
      normalizeProcessName (normalizeProcessName p) =
        normalizeProcessName p) ∧
    (decide (normalizeAppPatterns cfgScenario) (some "zen.exe")
        (some "unknown.example")).egress =
      (decide cfgScenario (some "zen.exe") (some "unknown.example")).egress :=
  ⟨by decide,
    C10_pattern_normalization.1 cfgScenario (by decide) (some "zen.exe")
      (some "unknown.example")⟩

end PolicyRouter
